import Mathlib

/-!
Verification development for the table-extraction core of the
Scrape-Soccer-Teams repository.

The extraction core lives in src/parse.py and src/soccer_scraper/parse.py
(the two variants compute identical record sets and differ only in which
diagnostic messages they print).  We embed the core shallowly:

* An input document is modelled as the result of the external markup
  collaborator: either no table element was found (none), or the first
  table was found and its rows are given as lists of cell texts
  (some rows).  Locating the table, the optional tbody wrapper and the
  td elements is done by BeautifulSoup in the source and is outside the
  extraction logic itself.
* Python str.strip, str.upper, str.lower, int, and float are modelled by
  pyStrip, pyUpper, pyLower, natOfDigits, and pyFloat?.  The float model
  covers the plain decimal grammar (optional sign, digits, at most one
  dot); exponent forms, inf and nan never arise from the data handled
  here.  Numeric cell values are carried as Option Rat, with none
  standing for the absent value (Python None, NaN after to_numeric).
* The two regular-expression searches of the source are embedded by
  findMoneyMatch and findPctMatch.  Both regexes put a character class
  disjoint from the following literal, so leftmost search with greedy
  backtracking reduces to: at each position, take the maximal run of the
  class and check the next character.
* Printing is modelled by an explicit list of Diag values.
-/

namespace SoccerScrape

/-- Model of Python str.strip: drop leading and trailing whitespace. -/
def pyStrip (s : String) : String :=
  String.mk (((s.data.dropWhile Char.isWhitespace).reverse.dropWhile
    Char.isWhitespace).reverse)

/-- Model of Python str.upper on the ASCII data handled here. -/
def pyUpper (s : String) : String := String.mk (s.data.map Char.toUpper)

/-- Model of Python str.lower on the ASCII data handled here. -/
def pyLower (s : String) : String := String.mk (s.data.map Char.toLower)

/-- Model of re.sub removing every non-digit character,
as in the rank conversion of parse.py line 93. -/
def digitsOnly (s : String) : String := String.mk (s.data.filter Char.isDigit)

/-- Value of a digit string, as computed by Python int on a
string of digits. -/
def natOfDigits (l : List Char) : ℕ :=
  l.foldl (fun n c => 10 * n + (c.toNat - 48)) 0

/-- The character class of the regex fragment matching digits and dots. -/
def isDecChar (c : Char) : Bool := c.isDigit || c = '.'

/-- Exact rational value of a decimal literal split as integer part and
fractional part. -/
def decimalVal (ip fp : List Char) : ℚ :=
  (natOfDigits ip : ℚ) + (natOfDigits fp : ℚ) / (10 : ℚ) ^ fp.length

/-- Model of Python float on a string of digits and dots (the capture of
the value regexes): succeeds exactly on a nonempty string with at most
one dot and at least one digit. -/
def parseUnsignedDec? (l : List Char) : Option ℚ :=
  if l ≠ [] ∧ l.all isDecChar = true ∧ l.count '.' ≤ 1 ∧
      l.any Char.isDigit = true then
    some (decimalVal (l.takeWhile (fun c => c != '.'))
      ((l.dropWhile (fun c => c != '.')).drop 1))
  else none

/-- Model of Python float on an arbitrary string: strip whitespace,
allow an optional sign, then the plain decimal grammar. -/
def pyFloat? (s : String) : Option ℚ :=
  match (pyStrip s).data with
  | '+' :: rest => parseUnsignedDec? rest
  | '-' :: rest => (parseUnsignedDec? rest).map (fun q => -q)
  | l => parseUnsignedDec? l

/-- The shared guard of both value normalizers, parse.py lines 7 and 31:
empty input, or input whose stripped uppercase form is N/A, a dash, or
empty, is a sentinel for the absent value. -/
def isSentinel (s : String) : Bool :=
  s = "" || pyUpper (pyStrip s) = "N/A" || pyUpper (pyStrip s) = "-" ||
    pyUpper (pyStrip s) = ""

/-- Embedding of the search for the money regex of parse.py line 9:
dollar sign, then one or more digits or dots, then B or M, case
insensitive.  Because the digit-dot class cannot match B or M, the
leftmost-greedy match is: at each dollar sign, the maximal digit-dot run
provided it is nonempty and directly followed by B, b, M or m. -/
def findMoneyMatch : List Char → Option (List Char × Char)
  | [] => none
  | c :: rest =>
    if c = '$' then
      match (rest.takeWhile isDecChar).isEmpty,
          (rest.drop (rest.takeWhile isDecChar).length).head? with
      | false, some u =>
        if u = 'B' || u = 'b' || u = 'M' || u = 'm' then
          some (rest.takeWhile isDecChar, u)
        else findMoneyMatch rest
      | _, _ => findMoneyMatch rest
    else findMoneyMatch rest

/-- Embedding of the search for the percent regex of parse.py line 33:
one or more digits or dots, then a percent sign.  Same reduction of
leftmost-greedy search as for findMoneyMatch. -/
def findPctMatch : List Char → Option (List Char)
  | [] => none
  | c :: rest =>
    if isDecChar c then
      if ((c :: rest).drop ((c :: rest).takeWhile isDecChar).length).head?
          = some '%' then
        some ((c :: rest).takeWhile isDecChar)
      else findPctMatch rest
    else findPctMatch rest

/-- Embedding of parse_monetary_value_to_billions, parse.py lines 6-27:
sentinel inputs are absent; a money match is parsed as a float and
divided by 1000 for unit M (float failure gives absent); otherwise all
characters except digits and dots are stripped and, when something is
left, a float parse is attempted (failure gives absent). -/
def parse_monetary_value_to_billions (value_str_raw : String) : Option ℚ :=
  if isSentinel value_str_raw then none
  else
    match findMoneyMatch value_str_raw.data with
    | some (numChars, u) =>
      match parseUnsignedDec? numChars with
      | some v => if u = 'M' || u = 'm' then some (v / 1000) else some v
      | none => none
    | none =>
      match value_str_raw.data.filter isDecChar with
      | [] => none
      | cleaned => parseUnsignedDec? cleaned

/-- Embedding of parse_percentage_value, parse.py lines 30-47: sentinel
inputs are absent; a percent match is parsed as a float (failure gives
absent); otherwise a direct float parse of the stripped whole string is
attempted when it is nonempty (failure gives absent). -/
def parse_percentage_value (value_str_raw : String) : Option ℚ :=
  if isSentinel value_str_raw then none
  else
    match findPctMatch value_str_raw.data with
    | some numChars => parseUnsignedDec? numChars
    | none =>
      if pyStrip value_str_raw ≠ "" then pyFloat? (pyStrip value_str_raw)
      else none

/-- Model of BeautifulSoup get_text with strip=True on one cell. -/
def getText (cell : String) : String := pyStrip cell

/-- The normalized output unit, one row of the produced frame with the
columns of EXPECTED_COLUMNS. -/
structure Record where
  rank : ℕ
  team : String
  country : String
  league : String
  value_usd_bln : Option ℚ
  revenue_usd_bln : Option ℚ
  ebitda_usd_bln : Option ℚ
  debt_pct_value : Option ℚ
  owners : String
deriving DecidableEq, Repr

/-- The record built from the first nine cells of a row,
parse.py lines 83-111. -/
def mkRecord (cells : List String) : Record where
  rank := natOfDigits (digitsOnly (getText (cells.getD 0 ""))).data
  team := getText (cells.getD 1 "")
  country := getText (cells.getD 2 "")
  league := getText (cells.getD 3 "")
  value_usd_bln := parse_monetary_value_to_billions (getText (cells.getD 4 ""))
  revenue_usd_bln := parse_monetary_value_to_billions (getText (cells.getD 5 ""))
  ebitda_usd_bln := parse_monetary_value_to_billions (getText (cells.getD 6 ""))
  debt_pct_value := parse_percentage_value (getText (cells.getD 7 ""))
  owners := getText (cells.getD 8 "")

/-- The per-row duplicate test of parse.py line 105: some admitted row
has the same rank or the same lowercased team. -/
def isDup (acc : List Record) (rank : ℕ) (team : String) : Bool :=
  acc.any (fun r => r.rank = rank || pyLower r.team = pyLower team)

/-- Effect of one loop iteration of parse.py lines 79-121 on data_rows:
rows with fewer than nine cells are skipped, a rank cell without digits
raises ValueError and skips the row, an empty team skips the row, a
duplicate is dropped, and otherwise the record is appended. -/
def processRow (acc : List Record) (cells : List String) : List Record :=
  if cells.length ≥ 9 then
    match (digitsOnly (getText (cells.getD 0 ""))).data with
    | [] => acc
    | _ :: _ =>
      if (mkRecord cells).team ≠ "" then
        if isDup acc (mkRecord cells).rank (mkRecord cells).team then acc
        else acc ++ [mkRecord cells]
      else acc
  else acc

/-- data_rows after the whole row loop. -/
def accumRows (rows : List (List String)) : List Record :=
  rows.foldl processRow []

/-- Model of Series.astype(str).replace applied to the string columns,
parse.py line 135: the exact string None becomes the empty string. -/
def replaceNone (s : String) : String := if s = "None" then "" else s

/-- The string-column cleanup of parse.py lines 133-135 on one record. -/
def cleanStrings (r : Record) : Record :=
  { r with
    team := replaceNone r.team
    country := replaceNone r.country
    league := replaceNone r.league
    owners := replaceNone r.owners }

/-- Comparison key of the final sort, parse.py line 137. -/
def rankLE (a b : Record) : Prop := a.rank ≤ b.rank

instance : DecidableRel rankLE := fun a b => Nat.decLe a.rank b.rank

instance : IsTotal Record rankLE := ⟨fun a b => Nat.le_total a.rank b.rank⟩

instance : IsTrans Record rankLE := ⟨fun _ _ _ hab hbc => Nat.le_trans hab hbc⟩

/-- Model of DataFrame.sort_values by rank: a sort by the rank key.
Ranks are unique whenever this is reached, so the sorted order does not
depend on the sorting algorithm. -/
def sortByRank (d : List Record) : List Record := List.insertionSort rankLE d

/-- Keep-first deduplication by a key, with an accumulator of the keys
already seen. -/
def dedupByKeyAux {α : Type} [DecidableEq α] (key : Record → α)
    (seen : List α) : List Record → List Record
  | [] => []
  | r :: rest =>
    if key r ∈ seen then dedupByKeyAux key seen rest
    else r :: dedupByKeyAux key (key r :: seen) rest

/-- Model of DataFrame.drop_duplicates with keep first on one column. -/
def dropDuplicatesBy {α : Type} [DecidableEq α] (key : Record → α)
    (d : List Record) : List Record :=
  dedupByKeyAux key [] d

/-- The frame finalization of parse.py lines 127-139: build records,
clean the string columns, sort by rank, then drop duplicates first by
rank and then by team, keeping first. -/
def finalize (d : List Record) : List Record :=
  dropDuplicatesBy (fun r => r.team)
    (dropDuplicatesBy (fun r => r.rank) (sortByRank (d.map cleanStrings)))

/-- Embedding of parse_valuations, parse.py lines 55-141.  The input is
the outcome of the markup collaborator: none when no table element
exists, otherwise the rows of the first table as lists of cell texts.
The result is none when there is no table or when no data row was
accumulated, otherwise the finalized record list. -/
def parse_valuations (doc : Option (List (List String))) :
    Option (List Record) :=
  match doc with
  | none => none
  | some rows =>
    let d := accumRows rows
    if d = [] then none else some (finalize d)

/-- The diagnostic messages the extractor can print. -/
inductive Diag where
  | noTable : Diag
  | valueErrorSkip : ℕ → Diag
  | emptyTeamSkip : ℕ → Diag
  | notEnoughCells : ℕ → Diag
  | noDataRows : Diag
deriving DecidableEq, Repr

/-- The diagnostics actually printed by src/parse.py: the only active
print is the no-table message of line 68; every other diagnostic there
is commented out. -/
def srcDiags (doc : Option (List (List String))) : List Diag :=
  match doc with
  | none => [Diag.noTable]
  | some _ => []

/-- The per-row diagnostics printed by src/soccer_scraper/parse.py lines
136-147: a rank ValueError is reported only for row indexes above zero,
an empty team is always reported, and a short row is reported only for
row indexes above zero. -/
def rowDiag (i : ℕ) (cells : List String) : List Diag :=
  if cells.length ≥ 9 then
    match (digitsOnly (getText (cells.getD 0 ""))).data with
    | [] => if 0 < i then [Diag.valueErrorSkip i] else []
    | _ :: _ =>
      if getText (cells.getD 1 "") = "" then [Diag.emptyTeamSkip i] else []
  else if 0 < i then [Diag.notEnoughCells i] else []

/-- The full loop state of the enumerate loop of
src/soccer_scraper/parse.py: row index, data_rows, printed diagnostics.
The index is read only by the diagnostics. -/
def loopStep (st : ℕ × List Record × List Diag) (cells : List String) :
    ℕ × List Record × List Diag :=
  (st.1 + 1, processRow st.2.1 cells, st.2.2 ++ rowDiag st.1 cells)

/-- The extractor together with its ambient effect: the source only
appends its printed diagnostics to standard output and reads no ambient
state, so an invocation maps the prior output log to the extended log
and the result depends on the input document alone. -/
def parse_valuations_run (stdout : List Diag)
    (doc : Option (List (List String))) :
    List Diag × Option (List Record) :=
  (stdout ++ srcDiags doc, parse_valuations doc)

/-- Modelled from the spec, section 9 open question: the accumulation
loop with the per-row duplicate check removed, so that deduplication is
left entirely to the final global drop-duplicates pass.  This variant
exists nowhere in the source; it is the comparison point the spec asks
implementers to test against. -/
def processRowNoCheck (acc : List Record) (cells : List String) :
    List Record :=
  if cells.length ≥ 9 then
    match (digitsOnly (getText (cells.getD 0 ""))).data with
    | [] => acc
    | _ :: _ =>
      if (mkRecord cells).team ≠ "" then acc ++ [mkRecord cells] else acc
  else acc

/-- Modelled from the spec, section 9 open question: parse_valuations
with only the global deduplication mechanism kept. -/
def parse_valuations_globalOnly (doc : Option (List (List String))) :
    Option (List Record) :=
  match doc with
  | none => none
  | some rows =>
    let d := rows.foldl processRowNoCheck []
    if d = [] then none else some (finalize d)

/-! ### Helper lemmas shared by the claims -/

/-- The per-row duplicate check keeps any two admitted records apart in
both keys. -/
def RecOK (a b : Record) : Prop :=
  a.rank ≠ b.rank ∧ pyLower a.team ≠ pyLower b.team

/-- Invariant of data_rows: pairwise distinct ranks and lowercased
teams, and every admitted team is nonempty. -/
def Admissible (acc : List Record) : Prop :=
  acc.Pairwise RecOK ∧ ∀ r ∈ acc, r.team ≠ ""

lemma processRow_eq_of_valid (acc : List Record) (cells : List String)
    (h9 : 9 ≤ cells.length)
    (hd : (digitsOnly (getText (cells.getD 0 ""))).data ≠ [])
    (ht : getText (cells.getD 1 "") ≠ "") :
    processRow acc cells =
      if isDup acc (mkRecord cells).rank (mkRecord cells).team then acc
      else acc ++ [mkRecord cells] := by
  have ht2 : (mkRecord cells).team ≠ "" := ht
  unfold processRow
  rw [if_pos h9]
  rcases hc : (digitsOnly (getText (cells.getD 0 ""))).data with _ | ⟨a, l⟩
  · exact absurd hc hd
  · simp only
    rw [if_pos ht2]

lemma processRow_admissible (acc : List Record) (cells : List String)
    (h : Admissible acc) : Admissible (processRow acc cells) := by
  unfold processRow
  split
  · split
    · exact h
    · split
      · rename_i hteam
        split
        · exact h
        · rename_i hdup
          have hdup2 : ∀ x ∈ acc,
              ¬(x.rank = (mkRecord cells).rank ∨
                pyLower x.team = pyLower (mkRecord cells).team) := by
            intro x hx hor
            apply hdup
            rw [isDup, List.any_eq_true]
            refine ⟨x, hx, ?_⟩
            simp only [Bool.or_eq_true, decide_eq_true_eq]
            exact hor
          constructor
          · rw [List.pairwise_append]
            refine ⟨h.1, List.pairwise_singleton _ _, ?_⟩
            intro a ha b hb
            rw [List.mem_singleton] at hb
            subst hb
            exact ⟨fun he => hdup2 a ha (Or.inl he),
              fun he => hdup2 a ha (Or.inr he)⟩
          · intro r hr
            rw [List.mem_append, List.mem_singleton] at hr
            rcases hr with hr | hr
            · exact h.2 r hr
            · subst hr
              exact hteam
      · exact h
  · exact h

lemma foldl_processRow_admissible (rows : List (List String)) :
    ∀ acc, Admissible acc →
      Admissible (rows.foldl processRow acc) := by
  induction rows with
  | nil => intro acc h; exact h
  | cons row rest ih =>
    intro acc h
    rw [List.foldl_cons]
    exact ih _ (processRow_admissible acc row h)

lemma accumRows_admissible (rows : List (List String)) :
    Admissible (accumRows rows) :=
  foldl_processRow_admissible rows [] ⟨List.Pairwise.nil, by simp⟩

lemma pyLower_eq_empty_iff (s : String) : pyLower s = "" ↔ s = "" := by
  constructor
  · intro h
    have h3 : s.data.map Char.toLower = [] := String.ext_iff.mp h
    exact String.ext (List.map_eq_nil_iff.mp h3)
  · intro h
    subst h
    rfl

lemma replaceNone_pyLower_ne {a b : String} (ha : a ≠ "") (hb : b ≠ "")
    (h : pyLower a ≠ pyLower b) :
    pyLower (replaceNone a) ≠ pyLower (replaceNone b) := by
  unfold replaceNone
  split
  · rename_i h1
    split
    · rename_i h2
      subst h1
      subst h2
      exact absurd rfl h
    · intro hc
      apply hb
      rw [← pyLower_eq_empty_iff]
      exact (hc.symm.trans rfl)
  · split
    · rename_i h2
      intro hc
      apply ha
      rw [← pyLower_eq_empty_iff]
      exact (hc.trans rfl)
    · exact h

lemma ne_of_pyLower_ne {a b : String} (h : pyLower a ≠ pyLower b) :
    a ≠ b := fun hc => h (by rw [hc])

lemma dedupByKeyAux_eq_self {α : Type} [DecidableEq α]
    (key : Record → α) (l : List Record) :
    ∀ seen : List α, l.Pairwise (fun a b => key a ≠ key b) →
      (∀ r ∈ l, key r ∉ seen) → dedupByKeyAux key seen l = l := by
  induction l with
  | nil => intro seen _ _; rfl
  | cons r rest ih =>
    intro seen hp hs
    unfold dedupByKeyAux
    rw [if_neg (hs r (List.mem_cons_self r rest))]
    congr 1
    apply ih
    · exact hp.of_cons
    · intro x hx
      rw [List.mem_cons]
      rintro (hxr | hxs)
      · exact (List.pairwise_cons.mp hp).1 x hx hxr.symm
      · exact hs x (List.mem_cons_of_mem r hx) hxs

lemma dropDuplicatesBy_eq_self {α : Type} [DecidableEq α]
    (key : Record → α) (l : List Record)
    (hp : l.Pairwise (fun a b => key a ≠ key b)) :
    dropDuplicatesBy key l = l :=
  dedupByKeyAux_eq_self key l [] hp (by simp)

lemma sortByRank_perm (d : List Record) :
    (sortByRank d).Perm d := List.perm_insertionSort rankLE d

lemma sortByRank_sorted (d : List Record) :
    List.Sorted rankLE (sortByRank d) :=
  List.sorted_insertionSort rankLE d

lemma cleanStrings_rank (r : Record) : (cleanStrings r).rank = r.rank := rfl

lemma finalize_eq_of_admissible (d : List Record) (h : Admissible d) :
    finalize d = sortByRank (d.map cleanStrings) := by
  have hrank : (d.map cleanStrings).Pairwise
      (fun a b => a.rank ≠ b.rank) := by
    rw [List.pairwise_map]
    exact h.1.imp (fun hab => hab.1)
  have hteam : (d.map cleanStrings).Pairwise
      (fun a b => a.team ≠ b.team) := by
    rw [List.pairwise_map]
    apply List.Pairwise.imp_of_mem ?_ h.1
    intro a b ha hb hab
    exact ne_of_pyLower_ne
      (replaceNone_pyLower_ne (h.2 a ha) (h.2 b hb) hab.2)
  have hrank2 : (sortByRank (d.map cleanStrings)).Pairwise
      (fun a b => a.rank ≠ b.rank) :=
    (List.Perm.pairwise_iff (fun hab => hab.symm)
      (sortByRank_perm _)).mpr hrank
  have hteam2 : (sortByRank (d.map cleanStrings)).Pairwise
      (fun a b => a.team ≠ b.team) :=
    (List.Perm.pairwise_iff (fun hab => hab.symm)
      (sortByRank_perm _)).mpr hteam
  unfold finalize
  rw [dropDuplicatesBy_eq_self _ _ hrank2,
    dropDuplicatesBy_eq_self _ _ hteam2]

lemma parse_valuations_some_elim {rows : List (List String)}
    {recs : List Record}
    (h : parse_valuations (some rows) = some recs) :
    accumRows rows ≠ [] ∧ recs = finalize (accumRows rows) := by
  have h2 : (if accumRows rows = [] then (none : Option (List Record))
      else some (finalize (accumRows rows))) = some recs := h
  by_cases hd : accumRows rows = []
  · rw [if_pos hd] at h2
    exact absurd h2 (by simp)
  · rw [if_neg hd] at h2
    exact ⟨hd, (Option.some_inj.mp h2).symm⟩

/-! ### Concrete documents used by witnesses and counterexamples -/

/-- A header row: its rank cell has no digits, so rank parsing fails. -/
def headerRow : List String :=
  ["Rank", "Team", "Country", "League", "Value", "Revenue", "EBITDA",
   "Debt", "Owners"]

/-- A valid data row with rank 1. -/
def rowAlpha : List String :=
  ["1", "Alpha", "Spain", "La Liga", "N/A", "-", "", "N/A", "Own"]

/-- A valid data row with rank 2. -/
def rowBeta : List String :=
  ["2", "Beta", "", "", "N/A", "N/A", "N/A", "N/A", ""]

/-- A document whose table has a header row and two data rows given in
descending rank order. -/
def docW : Option (List (List String)) := some [headerRow, rowBeta, rowAlpha]

/-- The record extracted from rowAlpha. -/
def recAlpha : Record :=
  ⟨1, "Alpha", "Spain", "La Liga", none, none, none, none, "Own"⟩

/-- The record extracted from rowBeta. -/
def recBeta : Record := ⟨2, "Beta", "", "", none, none, none, none, ""⟩

/-- A data row whose rank cell is the digit zero. -/
def rowZero : List String :=
  ["0", "Zed", "c", "l", "N/A", "N/A", "N/A", "N/A", "o"]

/-- The record extracted from rowZero: its rank is zero. -/
def recZed : Record := ⟨0, "Zed", "c", "l", none, none, none, none, "o"⟩

/-- A valid data row with rank 1 and team Real. -/
def rowReal : List String :=
  ["1", "Real", "", "", "N/A", "N/A", "N/A", "N/A", ""]

/-- A valid data row with rank 2 whose team differs from rowReal only in
letter case. -/
def rowREAL : List String :=
  ["2", "REAL", "", "", "N/A", "N/A", "N/A", "N/A", ""]

/-- A document with two rows whose team names differ only in case. -/
def docC7 : Option (List (List String)) := some [rowReal, rowREAL]

/-! ### Claim theorems -/

/-- C1: whenever parse_valuations returns a record set, the output ranks
are pairwise distinct and ascending, and the output team values are
pairwise distinct under case-insensitive comparison. -/
theorem C1_output_rank_team_invariants (doc : Option (List (List String)))
    (recs : List Record) (h : parse_valuations doc = some recs) :
    recs.Pairwise (fun a b => a.rank < b.rank) ∧
    recs.Pairwise (fun a b => pyLower a.team ≠ pyLower b.team) := by
  cases doc with
  | none => exact absurd h (by simp [parse_valuations])
  | some rows =>
    obtain ⟨hne, hrecs⟩ := parse_valuations_some_elim h
    have hadm := accumRows_admissible rows
    have hfin := finalize_eq_of_admissible _ hadm
    subst hrecs
    rw [hfin]
    have hrankm : ((accumRows rows).map cleanStrings).Pairwise
        (fun a b => a.rank ≠ b.rank) := by
      rw [List.pairwise_map]
      exact hadm.1.imp (fun hab => hab.1)
    have hteamm : ((accumRows rows).map cleanStrings).Pairwise
        (fun a b => pyLower a.team ≠ pyLower b.team) := by
      rw [List.pairwise_map]
      apply List.Pairwise.imp_of_mem ?_ hadm.1
      intro a b ha hb hab
      exact replaceNone_pyLower_ne (hadm.2 a ha) (hadm.2 b hb) hab.2
    have hrank2 : (sortByRank ((accumRows rows).map cleanStrings)).Pairwise
        (fun a b => a.rank ≠ b.rank) :=
      (List.Perm.pairwise_iff (fun hab => hab.symm)
        (sortByRank_perm _)).mpr hrankm
    have hteam2 : (sortByRank ((accumRows rows).map cleanStrings)).Pairwise
        (fun a b => pyLower a.team ≠ pyLower b.team) :=
      (List.Perm.pairwise_iff (fun hab => hab.symm)
        (sortByRank_perm _)).mpr hteamm
    refine ⟨?_, hteam2⟩
    have hsorted := sortByRank_sorted ((accumRows rows).map cleanStrings)
    exact (List.Pairwise.and hsorted hrank2).imp
      (fun hab => Nat.lt_of_le_of_ne hab.1 hab.2)

/-- Witness for C1 on a concrete three-row document. -/
theorem C1_output_rank_team_invariants_witness :
    parse_valuations docW = some [recAlpha, recBeta] ∧
    ([recAlpha, recBeta].Pairwise (fun a b => a.rank < b.rank) ∧
     [recAlpha, recBeta].Pairwise
       (fun a b => pyLower a.team ≠ pyLower b.team)) :=
  ⟨by decide,
   C1_output_rank_team_invariants docW [recAlpha, recBeta] (by decide)⟩

/-- C4: the admission step follows first-seen-wins exactly: a valid
candidate row is appended when no admitted row shares its rank or its
lowercased team, and dropped otherwise; in particular, of two valid rows
where the later one repeats the rank or the case-insensitive team of the
earlier one, only the earlier one is retained. -/
theorem C4_first_seen_wins :
    (∀ (acc : List Record) (cells : List String), 9 ≤ cells.length →
      (digitsOnly (getText (cells.getD 0 ""))).data ≠ [] →
      getText (cells.getD 1 "") ≠ "" →
      processRow acc cells =
        if isDup acc (mkRecord cells).rank (mkRecord cells).team then acc
        else acc ++ [mkRecord cells]) ∧
    (∀ c1 c2 : List String, 9 ≤ c1.length → 9 ≤ c2.length →
      (digitsOnly (getText (c1.getD 0 ""))).data ≠ [] →
      (digitsOnly (getText (c2.getD 0 ""))).data ≠ [] →
      getText (c1.getD 1 "") ≠ "" → getText (c2.getD 1 "") ≠ "" →
      ((mkRecord c2).rank = (mkRecord c1).rank ∨
        pyLower (mkRecord c2).team = pyLower (mkRecord c1).team) →
      accumRows [c1, c2] = [mkRecord c1]) := by
  refine ⟨processRow_eq_of_valid, ?_⟩
  intro c1 c2 h91 h92 hd1 hd2 ht1 ht2 hdup
  have s1 : processRow [] c1 = [mkRecord c1] := by
    rw [processRow_eq_of_valid [] c1 h91 hd1 ht1]
    rw [if_neg (by simp [isDup])]
    rfl
  have s2 : processRow [mkRecord c1] c2 = [mkRecord c1] := by
    rw [processRow_eq_of_valid [mkRecord c1] c2 h92 hd2 ht2]
    rw [if_pos ?_]
    rw [isDup, List.any_eq_true]
    refine ⟨mkRecord c1, by simp, ?_⟩
    simp only [Bool.or_eq_true, decide_eq_true_eq]
    rcases hdup with hdup | hdup
    · exact Or.inl hdup.symm
    · exact Or.inr hdup.symm
  unfold accumRows
  rw [List.foldl_cons, s1, List.foldl_cons, s2, List.foldl_nil]

/-- Witness for C4: of two valid rows whose teams differ only in case,
only the first is retained. -/
theorem C4_first_seen_wins_witness :
    accumRows [rowReal, rowREAL] = [mkRecord rowReal] :=
  C4_first_seen_wins.2 rowReal rowREAL (by decide) (by decide) (by decide)
    (by decide) (by decide) (by decide) (by decide)

/-- Counterexample to C5: the no-table case and the table-found-but-no-
surviving-rows case produce the same call-level result, none, so the
call-level result does not distinguish the two outcomes. -/
theorem C5_counterexample :
    parse_valuations none = none ∧
    parse_valuations (some [headerRow]) = none ∧
    parse_valuations none = parse_valuations (some [headerRow]) := by
  decide

/-- C5 amended: both structural failure and empty result are surfaced to
the caller as the same non-exception value none; the two cases are told
apart only by the printed diagnostic, which src/parse.py emits in the
no-table case alone. -/
theorem C5_none_signals :
    parse_valuations none = none ∧
    (∀ rows, accumRows rows = [] → parse_valuations (some rows) = none) ∧
    srcDiags none = [Diag.noTable] ∧
    (∀ rows, srcDiags (some rows) = []) := by
  refine ⟨rfl, ?_, rfl, fun rows => rfl⟩
  intro rows h
  show (if accumRows rows = [] then (none : Option (List Record))
    else some (finalize (accumRows rows))) = none
  rw [if_pos h]

/-- Witness for C5 amended on a header-only table. -/
theorem C5_none_signals_witness :
    accumRows [headerRow] = [] ∧
    parse_valuations (some [headerRow]) = none :=
  ⟨by decide, C5_none_signals.2.1 [headerRow] (by decide)⟩

/-- Counterexample to C6: a row whose rank cell is the digit zero is
admitted, so an output rank need not be positive. -/
theorem C6_counterexample :
    parse_valuations (some [rowZero]) = some [recZed] ∧ recZed.rank = 0 := by
  decide

/-- C6 amended: every admitted record carries as rank the nonnegative
integer formed by the digits of its rank cell, and a row whose rank cell
contains no digit at all is skipped while extraction continues. -/
theorem C6_rank_from_digits (acc : List Record) (cells : List String) :
    ((digitsOnly (getText (cells.getD 0 ""))).data = [] →
      processRow acc cells = acc) ∧
    (∀ r ∈ processRow acc cells, r ∈ acc ∨
      (r = mkRecord cells ∧
        r.rank = natOfDigits (digitsOnly (getText (cells.getD 0 ""))).data ∧
        (digitsOnly (getText (cells.getD 0 ""))).data ≠ [])) := by
  constructor
  · intro hd
    unfold processRow
    split
    · rw [hd]
    · rfl
  · intro r hr
    unfold processRow at hr
    split at hr
    · split at hr
      · exact Or.inl hr
      · rename_i heq
        split at hr
        · split at hr
          · exact Or.inl hr
          · rw [List.mem_append, List.mem_singleton] at hr
            rcases hr with hr | hr
            · exact Or.inl hr
            · refine Or.inr ⟨hr, ?_, by rw [heq]; simp⟩
              subst hr
              rfl
        · exact Or.inl hr
    · exact Or.inl hr

/-- Witness for C6 amended: the header row is skipped, and the record of
a valid row carries the digit value of its rank cell. -/
theorem C6_rank_from_digits_witness :
    (digitsOnly (getText (headerRow.getD 0 ""))).data = [] ∧
    processRow [] headerRow = [] :=
  ⟨by decide, (C6_rank_from_digits [] headerRow).1 (by decide)⟩

/-- Counterexample to C7: keeping only the global drop-duplicates pass
is not identical to the double-checked behavior, because the global team
deduplication is case-sensitive while the per-row check compares
lowercased teams. -/
theorem C7_counterexample :
    parse_valuations docC7 ≠ parse_valuations_globalOnly docC7 := by
  decide

/-- C7 amended: the final consistency pass removes nothing from the
per-row-checked accumulation, so the result is just the sorted cleaned
accumulation and the per-row mechanism alone is equivalent; keeping only
the global pass, however, differs on team names that repeat up to letter
case. -/
theorem C7_per_row_alone_suffices (rows : List (List String))
    (h : accumRows rows ≠ []) :
    parse_valuations (some rows) =
      some (sortByRank ((accumRows rows).map cleanStrings)) ∧
    parse_valuations docC7 ≠ parse_valuations_globalOnly docC7 := by
  refine ⟨?_, by decide⟩
  have h2 : parse_valuations (some rows) =
      some (finalize (accumRows rows)) := by
    show (if accumRows rows = [] then (none : Option (List Record))
      else some (finalize (accumRows rows))) = _
    rw [if_neg h]
  rw [h2, finalize_eq_of_admissible _ (accumRows_admissible rows)]

/-- Witness for C7 amended on a one-row document. -/
theorem C7_per_row_alone_suffices_witness :
    accumRows [rowAlpha] ≠ [] ∧
    (parse_valuations (some [rowAlpha]) =
      some (sortByRank ((accumRows [rowAlpha]).map cleanStrings)) ∧
     parse_valuations docC7 ≠ parse_valuations_globalOnly docC7) :=
  ⟨by decide, C7_per_row_alone_suffices [rowAlpha] (by decide)⟩

/-- C2: the monetary normalizer maps the documented inputs to the
documented values, and in general a dollar-number-unit match is parsed
as a float and divided by 1000 for unit M, a failing float parse of the
matched number gives absent, and without a match the input stripped to
digits and dots is float-parsed, empty or failing parses giving
absent. -/
theorem C2_monetary_normalizer :
    parse_monetary_value_to_billions "$6.7B" = some (6.7 : ℚ) ∧
    parse_monetary_value_to_billions "$930M" = some (0.93 : ℚ) ∧
    parse_monetary_value_to_billions "N/A" = none ∧
    parse_monetary_value_to_billions "-" = none ∧
    parse_monetary_value_to_billions "" = none ∧
    parse_monetary_value_to_billions " n/a " = none ∧
    parse_monetary_value_to_billions "6.7" = some (6.7 : ℚ) ∧
    (∀ (s : String) (num : List Char) (u : Char) (v : ℚ),
      isSentinel s = false → findMoneyMatch s.data = some (num, u) →
      parseUnsignedDec? num = some v →
      parse_monetary_value_to_billions s =
        some (if u = 'M' || u = 'm' then v / 1000 else v)) ∧
    (∀ (s : String) (num : List Char) (u : Char),
      isSentinel s = false → findMoneyMatch s.data = some (num, u) →
      parseUnsignedDec? num = none →
      parse_monetary_value_to_billions s = none) ∧
    (∀ s : String, isSentinel s = false → findMoneyMatch s.data = none →
      parse_monetary_value_to_billions s =
        parseUnsignedDec? (s.data.filter isDecChar)) := by
  have v67 : decimalVal ['6'] ['7'] = (6.7 : ℚ) := by
    unfold decimalVal
    rw [(by decide : natOfDigits ['6'] = 6),
      (by decide : natOfDigits ['7'] = 7)]
    norm_num
  have e1 : parse_monetary_value_to_billions "$6.7B" =
      some (decimalVal ['6'] ['7']) := rfl
  have e2 : parse_monetary_value_to_billions "$930M" =
      some (decimalVal ['9', '3', '0'] [] / 1000) := rfl
  have v930 : decimalVal ['9', '3', '0'] [] / 1000 = (0.93 : ℚ) := by
    unfold decimalVal
    rw [(by decide : natOfDigits ['9', '3', '0'] = 930),
      (by decide : natOfDigits ([] : List Char) = 0)]
    norm_num
  have e3 : parse_monetary_value_to_billions "6.7" =
      some (decimalVal ['6'] ['7']) := rfl
  refine ⟨e1.trans (congrArg some v67), e2.trans (congrArg some v930),
    by decide, by decide, by decide, by decide,
    e3.trans (congrArg some v67), ?_, ?_, ?_⟩
  · intro s num u v hs hm hv
    unfold parse_monetary_value_to_billions
    simp only [hs, Bool.false_eq_true, if_false, hm, hv]
    exact (apply_ite some _ _ _).symm
  · intro s num u hs hm hv
    unfold parse_monetary_value_to_billions
    simp only [hs, Bool.false_eq_true, if_false, hm, hv]
  · intro s hs hm
    unfold parse_monetary_value_to_billions
    simp only [hs, Bool.false_eq_true, if_false, hm]
    split
    · rename_i heq
      rw [heq]
      rfl
    · rfl

/-- Witness for C2 on an input whose matched number fails the float
parse. -/
theorem C2_monetary_normalizer_witness :
    isSentinel "$.M" = false ∧
    findMoneyMatch ("$.M".data) = some (['.'], 'M') ∧
    parseUnsignedDec? ['.'] = none ∧
    parse_monetary_value_to_billions "$.M" = none := by
  obtain ⟨-, -, -, -, -, -, -, -, g2, -⟩ := C2_monetary_normalizer
  exact ⟨by decide, by decide, by decide,
    g2 "$.M" ['.'] 'M' (by decide) (by decide) (by decide)⟩

/-- C3: the percentage normalizer maps the documented inputs to the
documented values, and in general after the sentinel check a matched
number-percent pattern is float-parsed with failure giving absent, and
without a match the stripped whole string is float-parsed with failure
giving absent. -/
theorem C3_percentage_normalizer :
    parse_percentage_value "19%" = some (19.0 : ℚ) ∧
    parse_percentage_value "0%" = some (0.0 : ℚ) ∧
    parse_percentage_value "N/A" = none ∧
    parse_percentage_value "0" = some (0.0 : ℚ) ∧
    (∀ (s : String) (num : List Char), isSentinel s = false →
      findPctMatch s.data = some num →
      parse_percentage_value s = parseUnsignedDec? num) ∧
    (∀ s : String, isSentinel s = false → findPctMatch s.data = none →
      parse_percentage_value s =
        if pyStrip s ≠ "" then pyFloat? (pyStrip s) else none) := by
  have v19 : decimalVal ['1', '9'] [] = (19.0 : ℚ) := by
    unfold decimalVal
    rw [(by decide : natOfDigits ['1', '9'] = 19),
      (by decide : natOfDigits ([] : List Char) = 0)]
    norm_num
  have v0 : decimalVal ['0'] [] = (0.0 : ℚ) := by
    unfold decimalVal
    rw [(by decide : natOfDigits ['0'] = 0),
      (by decide : natOfDigits ([] : List Char) = 0)]
    norm_num
  have e1 : parse_percentage_value "19%" =
      some (decimalVal ['1', '9'] []) := rfl
  have e2 : parse_percentage_value "0%" = some (decimalVal ['0'] []) := rfl
  have e3 : parse_percentage_value "0" = some (decimalVal ['0'] []) := rfl
  refine ⟨e1.trans (congrArg some v19), e2.trans (congrArg some v0),
    by decide, e3.trans (congrArg some v0), ?_, ?_⟩
  · intro s num hs hm
    unfold parse_percentage_value
    simp only [hs, Bool.false_eq_true, if_false, hm]
  · intro s hs hm
    unfold parse_percentage_value
    simp only [hs, Bool.false_eq_true, if_false, hm]

/-- Witness for C3 on an input with no percent pattern, taking the
direct-parse fallback. -/
theorem C3_percentage_normalizer_witness :
    isSentinel "abc" = false ∧
    findPctMatch ("abc".data) = none ∧
    parse_percentage_value "abc" =
      (if pyStrip "abc" ≠ "" then pyFloat? (pyStrip "abc") else none) :=
  ⟨by decide, by decide,
   C3_percentage_normalizer.2.2.2.2.2 "abc" (by decide) (by decide)⟩

/-- C8: a short row or a row with an unparseable rank leaves the
accumulator unchanged and the loop continues over the remaining rows;
the soccer_scraper variant prints no diagnostic for such failures at row
index 0 and a diagnostic at any later index. -/
theorem C8_row_failures_nonfatal :
    (∀ (acc : List Record) (cells : List String), cells.length < 9 →
      processRow acc cells = acc) ∧
    (∀ (acc : List Record) (cells : List String),
      (digitsOnly (getText (cells.getD 0 ""))).data = [] →
      processRow acc cells = acc) ∧
    (∀ (acc : List Record) (cells : List String)
      (rest : List (List String)), processRow acc cells = acc →
      List.foldl processRow acc (cells :: rest) =
        List.foldl processRow acc rest) ∧
    (∀ (i : ℕ) (cells : List String), cells.length < 9 →
      rowDiag 0 cells = [] ∧
      (0 < i → rowDiag i cells = [Diag.notEnoughCells i])) ∧
    (∀ (i : ℕ) (cells : List String), 9 ≤ cells.length →
      (digitsOnly (getText (cells.getD 0 ""))).data = [] →
      rowDiag 0 cells = [] ∧
      (0 < i → rowDiag i cells = [Diag.valueErrorSkip i])) := by
  refine ⟨?_, ?_, ?_, ?_, ?_⟩
  · intro acc cells h
    unfold processRow
    rw [if_neg (by omega)]
  · intro acc cells hd
    unfold processRow
    split
    · rw [hd]
    · rfl
  · intro acc cells rest h
    rw [List.foldl_cons, h]
  · intro i cells h
    constructor
    · unfold rowDiag
      rw [if_neg (by omega), if_neg (by omega)]
    · intro hi
      unfold rowDiag
      rw [if_neg (by omega), if_pos hi]
  · intro i cells h9 hd
    constructor
    · unfold rowDiag
      rw [if_pos h9, hd]
      rw [if_neg (by omega)]
    · intro hi
      unfold rowDiag
      rw [if_pos h9, hd]
      rw [if_pos hi]

/-- Witness for C8 on a three-cell row followed by a valid row. -/
theorem C8_row_failures_nonfatal_witness :
    (["1", "X", "Y"] : List String).length < 9 ∧
    processRow [] ["1", "X", "Y"] = [] ∧
    List.foldl processRow [] [["1", "X", "Y"], rowAlpha] =
      List.foldl processRow [] [rowAlpha] ∧
    rowDiag 0 ["1", "X", "Y"] = [] ∧
    rowDiag 3 ["1", "X", "Y"] = [Diag.notEnoughCells 3] := by
  refine ⟨by decide,
    C8_row_failures_nonfatal.1 [] ["1", "X", "Y"] (by decide),
    C8_row_failures_nonfatal.2.2.1 [] ["1", "X", "Y"] [rowAlpha]
      (by decide), ?_, ?_⟩
  · exact (C8_row_failures_nonfatal.2.2.2.1 3 ["1", "X", "Y"]
      (by decide)).1
  · exact (C8_row_failures_nonfatal.2.2.2.1 3 ["1", "X", "Y"]
      (by decide)).2 (by decide)

/-- C9: the extractor result is a function of the input document alone,
identical inputs give identical outputs, the only ambient effect is an
append to the output log, and a prior invocation never influences a
later one. -/
theorem C9_pure_extractor :
    (∀ (s1 s2 : List Diag) (doc1 doc2 : Option (List (List String))),
      doc1 = doc2 →
      (parse_valuations_run s1 doc1).2 = (parse_valuations_run s2 doc2).2) ∧
    (∀ s doc, (parse_valuations_run s doc).1 = s ++ srcDiags doc) ∧
    (∀ s doc1 doc2,
      (parse_valuations_run (parse_valuations_run s doc1).1 doc2).2 =
        (parse_valuations_run s doc2).2) := by
  refine ⟨?_, fun s doc => rfl, fun s doc1 doc2 => rfl⟩
  intro s1 s2 doc1 doc2 h
  rw [h]
  rfl

/-- Witness for C9: two invocations on the same document with different
prior logs return the same result. -/
theorem C9_pure_extractor_witness :
    (parse_valuations_run [] docW).2 =
      (parse_valuations_run [Diag.noTable] docW).2 :=
  C9_pure_extractor.1 [] [Diag.noTable] docW docW rfl

/-- C10: the record outcome of the row loop is independent of the row
indexes, a valid first row is admitted exactly like any other row, and
at index 0 the only diagnostic that can appear is the empty-team one, so
position changes only whether a failure is reported. -/
theorem C10_header_by_validation_only :
    (∀ (rows : List (List String)) (i : ℕ) (acc : List Record)
      (ds : List Diag),
      (rows.foldl loopStep (i, acc, ds)).2.1 =
        rows.foldl processRow acc) ∧
    (∀ cells : List String, 9 ≤ cells.length →
      (digitsOnly (getText (cells.getD 0 ""))).data ≠ [] →
      getText (cells.getD 1 "") ≠ "" →
      processRow [] cells = [mkRecord cells]) ∧
    (∀ (cells : List String) (rest : List (List String)),
      9 ≤ cells.length →
      (digitsOnly (getText (cells.getD 0 ""))).data ≠ [] →
      getText (cells.getD 1 "") ≠ "" →
      accumRows (cells :: rest) =
        List.foldl processRow [mkRecord cells] rest) ∧
    (∀ cells : List String, rowDiag 0 cells = [] ∨
      rowDiag 0 cells = [Diag.emptyTeamSkip 0]) := by
  have hstep : ∀ (rows : List (List String)) (i : ℕ) (acc : List Record)
      (ds : List Diag),
      (rows.foldl loopStep (i, acc, ds)).2.1 =
        rows.foldl processRow acc := by
    intro rows
    induction rows with
    | nil => intro i acc ds; rfl
    | cons row rest ih =>
      intro i acc ds
      rw [List.foldl_cons, List.foldl_cons]
      exact ih (i + 1) (processRow acc row) (ds ++ rowDiag i row)
  have hvalid : ∀ cells : List String, 9 ≤ cells.length →
      (digitsOnly (getText (cells.getD 0 ""))).data ≠ [] →
      getText (cells.getD 1 "") ≠ "" →
      processRow [] cells = [mkRecord cells] := by
    intro cells h9 hd ht
    rw [processRow_eq_of_valid [] cells h9 hd ht]
    rw [if_neg (by simp [isDup])]
    rfl
  refine ⟨hstep, hvalid, ?_, ?_⟩
  · intro cells rest h9 hd ht
    unfold accumRows
    rw [List.foldl_cons, hvalid cells h9 hd ht]
  · intro cells
    unfold rowDiag
    split
    · split
      · left
        rfl
      · split
        · right
          rfl
        · left
          rfl
    · left
      rfl

/-- Witness for C10: a valid row at index 0 is admitted. -/
theorem C10_header_by_validation_only_witness :
    9 ≤ rowAlpha.length ∧
    processRow [] rowAlpha = [mkRecord rowAlpha] :=
  ⟨by decide, C10_header_by_validation_only.2.1 rowAlpha (by decide)
    (by decide) (by decide)⟩

end SoccerScrape
